import Mathlib

/-!
Verification development for the libclang `SourceIndex` parse-result cache
(`src/cpp/session/modules/clang/libclang/SourceIndex.cpp`).

The cache is modelled as explicit state passing:
* `SIState` holds the `translationUnits_` map (an association list sorted by
  key, mirroring `std::map<std::string, StoredTranslationUnit>`), a counter
  producing fresh engine handles, and an event trace recording every call
  into the libclang engine (`parseTranslationUnit`, `reparseTranslationUnit`,
  `disposeTranslationUnit`) plus every `TranslationUnit::includesFile` query.
* `Env` packages the external collaborators queried by the code: the
  compilation database (`compileArgsForTranslationUnit`, `translationUnits`),
  the file system (`lastWriteTime`), the unsaved-files overlay set, the
  engine's success behaviour for parse and reparse, and the inclusion
  relation of parsed translation units.

Engine handles are modelled as naturals drawn from a monotone counter: each
successful `parseTranslationUnit` yields a fresh handle, matching the code's
creation of a new `CXTranslationUnit` object on every full parse.
-/

/-- Events recording each call into the libclang engine, in order. -/
inductive EngineCall where
  | parse (filename : String) (args : List String) (unsaved : List (String × String))
  | reparse (tu : Nat) (unsaved : List (String × String))
  | dispose (tu : Nat)
  | includesQuery (filename : String) (header : String)
deriving Repr, DecidableEq

/-- Mirrors `StoredTranslationUnit` (compileArgs, lastWriteTime, tu). -/
structure StoredTranslationUnit where
  compileArgs : List String
  lastWriteTime : Nat
  tu : Nat
deriving Repr, DecidableEq

/-- Mirrors the `TranslationUnit` result type: a filename paired with the
borrowed engine handle; `tu = none` is the empty result (`TranslationUnit()`,
NULL handle). -/
structure TranslationUnit where
  filename : String
  tu : Option Nat
deriving Repr, DecidableEq

/-- The mutable state of a `SourceIndex`: the `translationUnits_` map
(association list sorted by key), the next fresh engine handle, and the
trace of engine calls made so far. -/
structure SIState where
  translationUnits : List (String × StoredTranslationUnit)
  nextHandle : Nat
  trace : List EngineCall
deriving Repr, DecidableEq

/-- The external collaborators of `SourceIndex`: compilation database,
file system, unsaved files, and the engine's behaviour. -/
structure Env where
  compileArgsForTranslationUnit : String → List String
  translationUnits : List String
  lastWriteTime : String → Nat
  unsavedFiles : List (String × String)
  parseSucceeds : String → List String → Bool
  reparseSucceeds : Nat → Bool
  includesFile : String → String → Bool
  verbose : Nat

/-- Last path component: the characters after the final slash
(`FilePath::filename()`). -/
def lastCompAux : List Char → List Char → List Char
  | acc, [] => acc
  | acc, c :: cs => if c = '/' then lastCompAux [] cs else lastCompAux (acc ++ [c]) cs

/-- Suffix of the character list starting at the last dot, if any
(boost-style `extension()`). -/
def extFromLastDot : List Char → Option (List Char)
  | [] => none
  | c :: cs =>
    match extFromLastDot cs with
    | some e => some e
    | none => if c = '.' then some (c :: cs) else none

/-- Mirrors `FilePath::extensionLowerCase()`: the extension of the last path
component, from its final dot, lower-cased; empty when there is no dot. -/
def extensionLowerCase (path : String) : String :=
  match extFromLastDot (lastCompAux [] path.data) with
  | some cs => String.mk (cs.map Char.toLower)
  | none => ""

/-- Mirrors `SourceIndex::isTranslationUnit` (lines 34-39): the extension,
lower-cased, is one of .c .cc .cpp .m .mm. -/
def isTranslationUnit (path : String) : Bool :=
  let ex := extensionLowerCase path
  ex == ".c" || ex == ".cc" || ex == ".cpp" || ex == ".m" || ex == ".mm"

/-- Lexicographic strict order on character lists, by code point (the key
order of `std::map<std::string, ...>`). -/
def charListLt : List Char → List Char → Bool
  | [], [] => false
  | [], _ :: _ => true
  | _ :: _, [] => false
  | a :: as, b :: bs =>
    if a.toNat < b.toNat then true
    else if b.toNat < a.toNat then false
    else charListLt as bs

/-- Strict key order on paths. -/
def keyLt (a b : String) : Bool := charListLt a.data b.data

/-- Insert or replace the binding of key `k`, keeping the list sorted by key
(mirrors `std::map::operator[]` assignment). -/
def mapInsert (k : String) (v : StoredTranslationUnit) :
    List (String × StoredTranslationUnit) → List (String × StoredTranslationUnit)
  | [] => [(k, v)]
  | (k', v') :: rest =>
    if keyLt k k' then (k, v) :: (k', v') :: rest
    else if k = k' then (k, v) :: rest
    else (k', v') :: mapInsert k v rest

/-- Remove the binding of key `k`, if present (mirrors `std::map::erase`). -/
def mapErase (k : String) :
    List (String × StoredTranslationUnit) → List (String × StoredTranslationUnit)
  | [] => []
  | (k', v') :: rest => if k = k' then rest else (k', v') :: mapErase k rest

/-- Append one engine call to the trace. -/
def addEvent (e : EngineCall) (s : SIState) : SIState :=
  { s with trace := s.trace ++ [e] }

/-- Mirrors `SourceIndex::removeTranslationUnit` (lines 80-88): if the map
has an entry for `filename`, dispose its handle and erase the entry. -/
def removeTranslationUnit (filename : String) (s : SIState) : SIState :=
  match s.translationUnits.lookup filename with
  | some stored =>
    { s with
      translationUnits := mapErase filename s.translationUnits,
      trace := s.trace ++ [EngineCall.dispose stored.tu] }
  | none => s

/-- Mirrors `SourceIndex::removeAllTranslationUnits` (lines 90-99): dispose
every stored handle, then clear the map. -/
def removeAllTranslationUnits (s : SIState) : SIState :=
  { s with
    translationUnits := [],
    trace := s.trace ++ s.translationUnits.map (fun p => EngineCall.dispose p.2.tu) }

/-- The argument list actually handed to `parseTranslationUnit`: the compile
args, with "-v" appended when `verbose_ >= 2` (lines 182-184). -/
def fullParseArgs (env : Env) (args : List String) : List String :=
  if 2 ≤ env.verbose then args ++ ["-v"] else args

/-- Mirrors lines 176-213 of `getTranslationUnit`: remove any existing
translation unit for the path, call `parseTranslationUnit`, and on success
store a new entry with a fresh handle; on failure return the empty result
and insert nothing. -/
def fullParse (env : Env) (filename : String) (args : List String)
    (lastWriteTime : Nat) (s : SIState) : TranslationUnit × SIState :=
  let s1 := removeTranslationUnit filename s
  let argsv := fullParseArgs env args
  let s2 := addEvent (EngineCall.parse filename argsv env.unsavedFiles) s1
  if env.parseSucceeds filename argsv then
    (⟨filename, some s2.nextHandle⟩,
     { s2 with
       nextHandle := s2.nextHandle + 1,
       translationUnits :=
         mapInsert filename ⟨argsv, lastWriteTime, s2.nextHandle⟩ s2.translationUnits })
  else
    (⟨"", none⟩, s2)

/-- Mirrors the source-file branch of `SourceIndex::getTranslationUnit`
(lines 125-213): fetch fresh compile args and the last write time, then run
the staleness policy — reuse when args and write time are unchanged,
incremental reparse when only the write time changed (falling through to a
full rebuild when the reparse fails), and a full rebuild otherwise. -/
def getSourceTranslationUnit (env : Env) (path : String) (s : SIState) :
    TranslationUnit × SIState :=
  let args := env.compileArgsForTranslationUnit path
  let lastWriteTime := env.lastWriteTime path
  let filename := path
  match s.translationUnits.lookup filename with
  | some stored =>
    if args = stored.compileArgs ∧ lastWriteTime = stored.lastWriteTime then
      (⟨filename, some stored.tu⟩, s)
    else if args = stored.compileArgs then
      let s1 := addEvent (EngineCall.reparse stored.tu env.unsavedFiles) s
      if env.reparseSucceeds stored.tu then
        (⟨filename, some stored.tu⟩,
         { s1 with
           translationUnits :=
             mapInsert filename { stored with lastWriteTime := lastWriteTime }
               s1.translationUnits })
      else
        fullParse env filename args lastWriteTime s1
    else
      fullParse env filename args lastWriteTime s
  | none => fullParse env filename args lastWriteTime s

/-- Mirrors the cached-entry scan of `getHeaderTranslationUnit`
(lines 219-226): walk the map in order, querying `includesFile` on each
cached translation unit, and return the first one that includes the header. -/
def scanCache (env : Env) (path : String) :
    List (String × StoredTranslationUnit) → SIState → Option TranslationUnit × SIState
  | [], s => (none, s)
  | (fname, stored) :: rest, s =>
    let s1 := addEvent (EngineCall.includesQuery fname path) s
    if env.includesFile fname path then (some ⟨fname, some stored.tu⟩, s1)
    else scanCache env path rest s1

/-- Mirrors the fallback loop of `getHeaderTranslationUnit` (lines 230-250),
parameterised by the recursive call to `getTranslationUnit` (`step`): force
`step` on each known source file in provider order; skip an empty result;
return the translation unit when it includes the header; otherwise call
`removeTranslationUnit(filePath.absolutePath())` — note that the code passes
the HEADER path here, not the source file's path — and continue with the
next source. -/
def headerSearchGo (step : String → SIState → TranslationUnit × SIState)
    (env : Env) (path : String) :
    List String → SIState → TranslationUnit × SIState
  | [], s => (⟨"", none⟩, s)
  | srcFile :: rest, s =>
    let r := step srcFile s
    if r.1.tu = none then headerSearchGo step env path rest r.2
    else
      let s2 := addEvent (EngineCall.includesQuery r.1.filename path) r.2
      if env.includesFile r.1.filename path then (r.1, s2)
      else headerSearchGo step env path rest (removeTranslationUnit path s2)

/-- Mirrors `SourceIndex::getTranslationUnit` (lines 119-214) with an
explicit fuel bound on the mutual recursion with the header search. The
recursion is only exercised when the compilation database lists a file that
is not itself a translation unit (where the C++ code would recurse without
bound); fuel 2 is exact for every terminating execution of the code in
which the database lists only translation-unit files. -/
def getTranslationUnitF : Nat → Env → String → SIState → TranslationUnit × SIState
  | 0, _, _, s => (⟨"", none⟩, s)
  | fuel + 1, env, path, s =>
    if isTranslationUnit path then
      getSourceTranslationUnit env path s
    else
      let r := scanCache env path s.translationUnits s
      match r.1 with
      | some tu => (tu, r.2)
      | none => headerSearchGo (getTranslationUnitF fuel env) env path env.translationUnits r.2

/-- The fallback header search at a given fuel for the forced
`getTranslationUnit` calls. -/
def headerSearchF (fuel : Nat) (env : Env) (path : String)
    (srcFiles : List String) (s : SIState) : TranslationUnit × SIState :=
  headerSearchGo (getTranslationUnitF fuel env) env path srcFiles s

/-- `SourceIndex::getTranslationUnit` at the fuel bound that is exact for
every terminating execution over a compilation database listing only
translation-unit files. -/
def getTranslationUnit (env : Env) (path : String) (s : SIState) :
    TranslationUnit × SIState :=
  getTranslationUnitF 2 env path s

/-- Mirrors `SourceIndex::primeTranslationUnit` (lines 102-108): parse only
when there is no record of this translation unit. -/
def primeTranslationUnit (env : Env) (path : String) (s : SIState) : SIState :=
  match s.translationUnits.lookup path with
  | some _ => s
  | none => (getTranslationUnit env path s).2

/-- Mirrors `SourceIndex::reprimeTranslationUnit` (lines 110-116): re-run
`getTranslationUnit` only when the map already has an entry for the path. -/
def reprimeTranslationUnit (env : Env) (path : String) (s : SIState) : SIState :=
  match s.translationUnits.lookup path with
  | some _ => (getTranslationUnit env path s).2
  | none => s

/-- Well-formedness of the cache map: keys strictly sorted, as maintained by
`std::map` — in particular at most one entry per path. -/
def mapWf (l : List (String × StoredTranslationUnit)) : Prop :=
  l.Pairwise (fun a b => keyLt a.1 b.1 = true)

/-- Whether an engine call is an `includesFile` query. -/
def isIncQuery : EngineCall → Bool
  | EngineCall.includesQuery _ _ => true
  | _ => false

/-- A fixed compile-argument list used by the concrete scenarios below. -/
def argsStd : List String := ["-std=c++11"]

/-- A cached entry for `a.cpp`: parsed with `argsStd`, write time 5, handle 0. -/
def storedA : StoredTranslationUnit := ⟨argsStd, 5, 0⟩

/-- A state whose cache holds exactly the entry for `a.cpp`. -/
def sHit : SIState := ⟨[("a.cpp", storedA)], 1, []⟩

/-- The empty initial state. -/
def s0 : SIState := ⟨[], 0, []⟩

/-- Collaborators for a pure cache hit on `a.cpp`: unchanged arguments and
write time. -/
def envHit : Env :=
  ⟨fun _ => argsStd, ["a.cpp"], fun _ => 5, [], fun _ _ => true, fun _ => true,
   fun _ _ => false, 0⟩

/-- Collaborators where `a.cpp` was modified (write time 7 instead of the
stored 5) but the arguments are unchanged; the reparse succeeds. -/
def envRe : Env :=
  ⟨fun _ => argsStd, ["a.cpp"], fun _ => 7, [], fun _ _ => true, fun _ => true,
   fun _ _ => false, 0⟩

/-- Collaborators where the compilation database now reports different
compile arguments for every file. -/
def envNew : Env :=
  ⟨fun _ => ["-std=c++14"], ["a.cpp"], fun _ => 5, [], fun _ _ => true,
   fun _ => true, fun _ _ => false, 0⟩

/-- Collaborators whose engine fails every parse. -/
def envFail : Env :=
  ⟨fun _ => argsStd, ["a.cpp"], fun _ => 5, [], fun _ _ => false, fun _ => true,
   fun _ _ => false, 0⟩

/-- Collaborators for the cold header lookup of `util.h`: the compilation
database lists `b.cpp` then `a.cpp`, every parse succeeds, and only `a.cpp`
includes `util.h`. -/
def envB : Env :=
  ⟨fun _ => argsStd, ["b.cpp", "a.cpp"], fun _ => 5, [], fun _ _ => true,
   fun _ => true, fun f h => f == "a.cpp" && h == "util.h", 0⟩

/-- Collaborators where parsing `b.cpp` fails and everything else succeeds;
nothing includes any header. -/
def envBFail : Env :=
  ⟨fun _ => argsStd, ["b.cpp", "a.cpp"], fun _ => 5, [],
   fun f _ => f != "b.cpp", fun _ => true, fun _ _ => false, 0⟩

theorem charListLt_irrefl : ∀ l, charListLt l l = false
  | [] => rfl
  | _ :: as => by simp [charListLt, charListLt_irrefl as]

theorem charListLt_trans (a : List Char) :
    ∀ b c, charListLt a b = true → charListLt b c = true → charListLt a c = true := by
  induction a with
  | nil =>
    intro b c hab hbc
    cases b <;> cases c <;> simp_all [charListLt]
  | cons x xs ih =>
    intro b c hab hbc
    cases b with
    | nil => simp [charListLt] at hab
    | cons y ys =>
      cases c with
      | nil => simp [charListLt] at hbc
      | cons z zs =>
        simp only [charListLt] at hab hbc ⊢
        by_cases h1 : x.toNat < y.toNat
        · by_cases h2 : y.toNat < z.toNat
          · have h5 : x.toNat < z.toNat := Nat.lt_trans h1 h2
            simp [h5]
          · by_cases h4 : z.toNat < y.toNat
            · simp [h2, h4] at hbc
            · have h5 : x.toNat < z.toNat := by omega
              simp [h5]
        · by_cases h3 : y.toNat < x.toNat
          · simp [h1, h3] at hab
          · simp [h1, h3] at hab
            by_cases h2 : y.toNat < z.toNat
            · have h5 : x.toNat < z.toNat := by omega
              simp [h5]
            · by_cases h4 : z.toNat < y.toNat
              · simp [h2, h4] at hbc
              · simp [h2, h4] at hbc
                have h5 : ¬ x.toNat < z.toNat := by omega
                have h6 : ¬ z.toNat < x.toNat := by omega
                simp [h5, h6]
                exact ih ys zs hab hbc

theorem charListLt_conn (a : List Char) :
    ∀ b, charListLt a b = false → a ≠ b → charListLt b a = true := by
  induction a with
  | nil =>
    intro b h hne
    cases b with
    | nil => exact absurd rfl hne
    | cons y ys => simp [charListLt] at h
  | cons x xs ih =>
    intro b h hne
    cases b with
    | nil => simp [charListLt]
    | cons y ys =>
      simp only [charListLt] at h ⊢
      by_cases h1 : x.toNat < y.toNat
      · simp [h1] at h
      · by_cases h2 : y.toNat < x.toNat
        · simp [h2]
        · simp [h1, h2] at h
          have hxy' : x.toNat = y.toNat := by omega
          have hxy : x = y := Char.ext (UInt32.ext hxy')
          subst hxy
          have hne' : xs ≠ ys := fun hh => hne (by rw [hh])
          simp [Nat.lt_irrefl]
          exact ih ys h hne'

theorem keyLt_irrefl (a : String) : keyLt a a = false :=
  charListLt_irrefl a.data

theorem keyLt_trans {a b c : String} (h1 : keyLt a b = true) (h2 : keyLt b c = true) :
    keyLt a c = true :=
  charListLt_trans a.data b.data c.data h1 h2

theorem keyLt_conn {a b : String} (h : keyLt a b = false) (hne : a ≠ b) :
    keyLt b a = true := by
  refine charListLt_conn a.data b.data h (fun hd => hne ?_)
  cases a; cases b; exact congrArg String.mk hd

theorem keyLt_ne {a b : String} (h : keyLt a b = true) : a ≠ b := by
  intro he
  rw [he, keyLt_irrefl] at h
  exact Bool.false_ne_true h

theorem lookup_mem {l : List (String × StoredTranslationUnit)} {k : String}
    {v : StoredTranslationUnit} (h : l.lookup k = some v) : (k, v) ∈ l := by
  induction l with
  | nil => simp [List.lookup] at h
  | cons p rest ih =>
    obtain ⟨k', v'⟩ := p
    by_cases he : k = k'
    · subst he
      simp only [List.lookup, beq_self_eq_true] at h
      cases h
      exact List.mem_cons_self _ _
    · simp only [List.lookup, beq_false_of_ne he] at h
      exact List.mem_cons_of_mem _ (ih h)

theorem lookup_eq_none {l : List (String × StoredTranslationUnit)} {k : String}
    (h : ∀ p ∈ l, p.1 ≠ k) : l.lookup k = none := by
  induction l with
  | nil => rfl
  | cons p rest ih =>
    obtain ⟨k', v'⟩ := p
    have hne : k ≠ k' := fun he => h (k', v') (List.mem_cons_self _ _) he.symm
    simp only [List.lookup, beq_false_of_ne hne]
    exact ih (fun q hq => h q (List.mem_cons_of_mem _ hq))

theorem mem_mapInsert {k : String} {v : StoredTranslationUnit} :
    ∀ {l : List (String × StoredTranslationUnit)} {p},
      p ∈ mapInsert k v l → p = (k, v) ∨ p ∈ l := by
  intro l
  induction l with
  | nil =>
    intro p hp
    simp [mapInsert] at hp
    exact Or.inl hp
  | cons q rest ih =>
    intro p hp
    obtain ⟨k', v'⟩ := q
    simp only [mapInsert] at hp
    by_cases h1 : keyLt k k' = true
    · rw [if_pos h1] at hp
      rcases List.mem_cons.mp hp with h | h
      · exact Or.inl h
      · exact Or.inr h
    · by_cases h2 : k = k'
      · rw [if_neg h1, if_pos h2] at hp
        rcases List.mem_cons.mp hp with h | h
        · exact Or.inl h
        · exact Or.inr (List.mem_cons_of_mem _ h)
      · rw [if_neg h1, if_neg h2] at hp
        rcases List.mem_cons.mp hp with h | h
        · exact Or.inr (by simp [h])
        · rcases ih h with h' | h'
          · exact Or.inl h'
          · exact Or.inr (List.mem_cons_of_mem _ h')

theorem mapWf_mapInsert {k : String} {v : StoredTranslationUnit} :
    ∀ {l : List (String × StoredTranslationUnit)}, mapWf l → mapWf (mapInsert k v l) := by
  intro l
  induction l with
  | nil =>
    intro _
    simp [mapInsert, mapWf]
  | cons q rest ih =>
    intro hwf
    obtain ⟨k', v'⟩ := q
    rcases (List.pairwise_cons.mp hwf) with ⟨hall, hrest⟩
    simp only [mapInsert]
    by_cases h1 : keyLt k k' = true
    · rw [if_pos h1]
      refine List.pairwise_cons.mpr ⟨?_, hwf⟩
      intro q hq
      rcases List.mem_cons.mp hq with h | h
      · simpa [h] using h1
      · exact keyLt_trans h1 (hall q h)
    · by_cases h2 : k = k'
      · rw [if_neg h1, if_pos h2]
        refine List.pairwise_cons.mpr ⟨?_, hrest⟩
        intro q hq
        rw [h2]
        exact hall q hq
      · rw [if_neg h1, if_neg h2]
        refine List.pairwise_cons.mpr ⟨?_, ih hrest⟩
        intro q hq
        rcases mem_mapInsert hq with h | h
        · rw [h]
          exact keyLt_conn (Bool.eq_false_iff.mpr h1) h2
        · exact hall q h

theorem mapErase_sublist (k : String) :
    ∀ l : List (String × StoredTranslationUnit), List.Sublist (mapErase k l) l := by
  intro l
  induction l with
  | nil => simp [mapErase]
  | cons q rest ih =>
    obtain ⟨k', v'⟩ := q
    simp only [mapErase]
    by_cases h : k = k'
    · simp only [h, if_true]
      exact List.sublist_cons_self _ _
    · simp only [h, if_false]
      exact List.Sublist.cons₂ _ ih
theorem mapWf_mapErase {k : String} {l : List (String × StoredTranslationUnit)}
    (h : mapWf l) : mapWf (mapErase k l) :=
  List.Pairwise.sublist (mapErase_sublist k l) h

theorem mapErase_of_lookup_none {k : String} :
    ∀ {l : List (String × StoredTranslationUnit)}, l.lookup k = none → mapErase k l = l := by
  intro l
  induction l with
  | nil => intro _; rfl
  | cons q rest ih =>
    intro h
    match q with
    | (k', v') =>
      by_cases he : k = k'
      · subst he
        simp [List.lookup] at h
      · simp only [List.lookup, beq_false_of_ne he] at h
        simp only [mapErase, if_neg he, ih h]

theorem lookup_mapErase_self {k : String} :
    ∀ {l : List (String × StoredTranslationUnit)}, mapWf l →
      (mapErase k l).lookup k = none := by
  intro l
  induction l with
  | nil => intro _; rfl
  | cons q rest ih =>
    intro hwf
    match q with
    | (k', v') =>
      rcases (List.pairwise_cons.mp hwf) with ⟨hall, hrest⟩
      simp only [mapErase]
      by_cases he : k = k'
      · subst he
        simp only [if_true]
        refine lookup_eq_none (fun p hp => ?_)
        intro hpe
        have := hall p hp
        rw [hpe] at this
        rw [keyLt_irrefl] at this
        exact Bool.false_ne_true this
      · simp only [he, if_false]
        simp only [List.lookup, beq_false_of_ne he]
        exact ih hrest

theorem lookup_mapInsert_self {k : String} {v : StoredTranslationUnit} :
    ∀ l : List (String × StoredTranslationUnit), (mapInsert k v l).lookup k = some v := by
  intro l
  induction l with
  | nil => simp [mapInsert, List.lookup]
  | cons q rest ih =>
    obtain ⟨k', v'⟩ := q
    simp only [mapInsert]
    by_cases h1 : keyLt k k' = true
    · rw [if_pos h1]
      simp [List.lookup]
    · by_cases h2 : k = k'
      · rw [if_neg h1, if_pos h2]
        simp [List.lookup]
      · rw [if_neg h1, if_neg h2]
        simp only [List.lookup, beq_false_of_ne h2]
        exact ih

theorem removeTU_map (f : String) (s : SIState) :
    (removeTranslationUnit f s).translationUnits = mapErase f s.translationUnits := by
  unfold removeTranslationUnit
  cases h : s.translationUnits.lookup f with
  | none => simp [mapErase_of_lookup_none h]
  | some st => rfl

theorem removeTU_nextHandle (f : String) (s : SIState) :
    (removeTranslationUnit f s).nextHandle = s.nextHandle := by
  unfold removeTranslationUnit
  cases h : s.translationUnits.lookup f <;> rfl

theorem removeTU_trace_some {f : String} {s : SIState} {stored : StoredTranslationUnit}
    (h : s.translationUnits.lookup f = some stored) :
    (removeTranslationUnit f s).trace = s.trace ++ [EngineCall.dispose stored.tu] := by
  unfold removeTranslationUnit
  rw [h]

theorem removeTU_trace_none {f : String} {s : SIState}
    (h : s.translationUnits.lookup f = none) :
    (removeTranslationUnit f s).trace = s.trace := by
  unfold removeTranslationUnit
  rw [h]

theorem mapWf_removeTU {f : String} {s : SIState} (h : mapWf s.translationUnits) :
    mapWf ((removeTranslationUnit f s).translationUnits) := by
  rw [removeTU_map]
  exact mapWf_mapErase h

theorem mapWf_removeAll (s : SIState) :
    mapWf ((removeAllTranslationUnits s).translationUnits) := by
  simp [removeAllTranslationUnits, mapWf]

theorem mapWf_fullParse {env : Env} {f : String} {args : List String} {lwt : Nat}
    {s : SIState} (h : mapWf s.translationUnits) :
    mapWf ((fullParse env f args lwt s).2.translationUnits) := by
  unfold fullParse
  by_cases hp : env.parseSucceeds f (fullParseArgs env args) = true
  · rw [if_pos hp]
    exact mapWf_mapInsert (mapWf_removeTU h)
  · rw [if_neg hp]
    exact mapWf_removeTU h

theorem mapWf_getSource {env : Env} {path : String} {s : SIState}
    (h : mapWf s.translationUnits) :
    mapWf ((getSourceTranslationUnit env path s).2.translationUnits) := by
  simp only [getSourceTranslationUnit]
  cases hl : List.lookup path s.translationUnits with
  | none =>
    simp only [hl]
    exact mapWf_fullParse h
  | some stored =>
    simp only [hl]
    by_cases h1 : env.compileArgsForTranslationUnit path = stored.compileArgs ∧
        env.lastWriteTime path = stored.lastWriteTime
    · rw [if_pos h1]
      exact h
    · rw [if_neg h1]
      by_cases h2 : env.compileArgsForTranslationUnit path = stored.compileArgs
      · rw [if_pos h2]
        by_cases h3 : env.reparseSucceeds stored.tu = true
        · rw [if_pos h3]
          exact mapWf_mapInsert h
        · rw [if_neg h3]
          exact mapWf_fullParse h
      · rw [if_neg h2]
        exact mapWf_fullParse h

theorem scanCache_map (env : Env) (p : String) :
    ∀ (l : List (String × StoredTranslationUnit)) (s : SIState),
      (scanCache env p l s).2.translationUnits = s.translationUnits := by
  intro l
  induction l with
  | nil => intro s; rfl
  | cons q rest ih =>
    intro s
    obtain ⟨f, st⟩ := q
    simp only [scanCache]
    by_cases h : env.includesFile f p = true
    · rw [if_pos h]
      rfl
    · rw [if_neg h]
      exact ih _

theorem scanCache_nextHandle (env : Env) (p : String) :
    ∀ (l : List (String × StoredTranslationUnit)) (s : SIState),
      (scanCache env p l s).2.nextHandle = s.nextHandle := by
  intro l
  induction l with
  | nil => intro s; rfl
  | cons q rest ih =>
    intro s
    obtain ⟨f, st⟩ := q
    simp only [scanCache]
    by_cases h : env.includesFile f p = true
    · rw [if_pos h]
      rfl
    · rw [if_neg h]
      exact ih _

theorem mapWf_headerSearchGo {step : String → SIState → TranslationUnit × SIState}
    (hstep : ∀ f s, mapWf s.translationUnits → mapWf ((step f s).2.translationUnits))
    (env : Env) (path : String) :
    ∀ (l : List String) (s : SIState), mapWf s.translationUnits →
      mapWf ((headerSearchGo step env path l s).2.translationUnits) := by
  intro l
  induction l with
  | nil => intro s h; exact h
  | cons srcFile rest ih =>
    intro s h
    simp only [headerSearchGo]
    by_cases h1 : (step srcFile s).1.tu = none
    · rw [if_pos h1]
      exact ih _ (hstep _ _ h)
    · rw [if_neg h1]
      by_cases h2 : env.includesFile (step srcFile s).1.filename path = true
      · rw [if_pos h2]
        exact hstep _ _ h
      · rw [if_neg h2]
        exact ih _ (mapWf_removeTU (hstep _ _ h))

theorem mapWf_getTranslationUnitF {env : Env} :
    ∀ (fuel : Nat) (path : String) (s : SIState), mapWf s.translationUnits →
      mapWf ((getTranslationUnitF fuel env path s).2.translationUnits) := by
  intro fuel
  induction fuel with
  | zero => intro path s h; exact h
  | succ fuel ih =>
    intro path s h
    simp only [getTranslationUnitF]
    by_cases hTU : isTranslationUnit path = true
    · rw [if_pos hTU]
      exact mapWf_getSource h
    · rw [if_neg hTU]
      cases hsc : (scanCache env path s.translationUnits s).1 with
      | some tu =>
        simp only [hsc]
        rw [scanCache_map]
        exact h
      | none =>
        simp only [hsc]
        refine mapWf_headerSearchGo (fun f s' h' => ih f s' h') env path _ _ ?_
        rw [scanCache_map]
        exact h

theorem getTU_src (env : Env) (path : String) (s : SIState)
    (hsrc : isTranslationUnit path = true) :
    getTranslationUnit env path s = getSourceTranslationUnit env path s := by
  show (if isTranslationUnit path then getSourceTranslationUnit env path s
        else (match (scanCache env path s.translationUnits s).1 with
              | some tu => (tu, (scanCache env path s.translationUnits s).2)
              | none => headerSearchGo (getTranslationUnitF 1 env) env path
                  env.translationUnits (scanCache env path s.translationUnits s).2)) =
      getSourceTranslationUnit env path s
  rw [if_pos hsrc]

theorem fullParse_trace (env : Env) (f : String) (args : List String) (lwt : Nat)
    (s : SIState) :
    (fullParse env f args lwt s).2.trace =
      (removeTranslationUnit f s).trace ++
        [EngineCall.parse f (fullParseArgs env args) env.unsavedFiles] := by
  unfold fullParse
  by_cases hp : env.parseSucceeds f (fullParseArgs env args) = true
  · rw [if_pos hp]
    rfl
  · rw [if_neg hp]
    rfl

theorem fullParse_fail {env : Env} {f : String} {args : List String} {lwt : Nat}
    {s : SIState} (hp : env.parseSucceeds f (fullParseArgs env args) = false) :
    fullParse env f args lwt s =
      (⟨"", none⟩,
       addEvent (EngineCall.parse f (fullParseArgs env args) env.unsavedFiles)
         (removeTranslationUnit f s)) := by
  unfold fullParse
  rw [if_neg (by simp [hp])]

theorem fullParse_fail_lookup {env : Env} {f : String} {args : List String} {lwt : Nat}
    {s : SIState} (hwf : mapWf s.translationUnits)
    (hp : env.parseSucceeds f (fullParseArgs env args) = false) :
    (fullParse env f args lwt s).2.translationUnits.lookup f = none := by
  rw [fullParse_fail hp]
  show (removeTranslationUnit f s).translationUnits.lookup f = none
  rw [removeTU_map]
  exact lookup_mapErase_self hwf

theorem fullParse_empty {env : Env} {f : String} {args : List String} {lwt : Nat}
    {s : SIState} (h : (fullParse env f args lwt s).1.tu = none) :
    env.parseSucceeds f (fullParseArgs env args) = false := by
  by_cases hp : env.parseSucceeds f (fullParseArgs env args) = true
  · unfold fullParse at h
    rw [if_pos hp] at h
    simp at h
  · exact Bool.eq_false_iff.mpr hp

theorem fullParse_lookup_success {env : Env} {f : String} {args : List String}
    {lwt : Nat} {s : SIState}
    (hp : env.parseSucceeds f (fullParseArgs env args) = true) :
    (fullParse env f args lwt s).2.translationUnits.lookup f =
      some ⟨fullParseArgs env args, lwt, s.nextHandle⟩ ∧
    (fullParse env f args lwt s).1 = ⟨f, some s.nextHandle⟩ := by
  unfold fullParse
  rw [if_pos hp]
  constructor
  · show (mapInsert f ⟨fullParseArgs env args, lwt, (removeTranslationUnit f s).nextHandle⟩
        (removeTranslationUnit f s).translationUnits).lookup f = _
    rw [lookup_mapInsert_self, removeTU_nextHandle]
  · show (⟨f, some (removeTranslationUnit f s).nextHandle⟩ : TranslationUnit) = _
    rw [removeTU_nextHandle]

/-- Claim C2 — cache hit: for a SourceFile path with a cached entry whose
compile arguments (fetched fresh from the compilation database) and
modification time both equal the stored ones, `getTranslationUnit` returns
the existing artifact (same path, same handle) and leaves the state — map,
handle counter and engine-call trace — completely unchanged: no parse, no
reparse, no dispose. -/
theorem getTranslationUnit_reuse (env : Env) (path : String) (s : SIState)
    (stored : StoredTranslationUnit)
    (hsrc : isTranslationUnit path = true)
    (hlook : s.translationUnits.lookup path = some stored)
    (hargs : env.compileArgsForTranslationUnit path = stored.compileArgs)
    (htime : env.lastWriteTime path = stored.lastWriteTime) :
    getTranslationUnit env path s = (⟨path, some stored.tu⟩, s) := by
  rw [getTU_src env path s hsrc]
  simp only [getSourceTranslationUnit, hlook]
  rw [if_pos ⟨hargs, htime⟩]

/-- Claim C3 — modification-time change: for a SourceFile path with a cached
entry whose compile arguments are unchanged but whose current modification
time differs from the stored one, `getTranslationUnit` issues exactly one
incremental reparse of the existing handle with the current unsaved-buffer
overlays. On reparse success it updates only the stored modification time
and returns the same handle identity; on reparse failure it falls through
to a full rebuild (the `fullParse` tail of the function) instead of
propagating an error. -/
theorem getTranslationUnit_mtime_reparse (env : Env) (path : String) (s : SIState)
    (stored : StoredTranslationUnit)
    (hsrc : isTranslationUnit path = true)
    (hlook : s.translationUnits.lookup path = some stored)
    (hargs : env.compileArgsForTranslationUnit path = stored.compileArgs)
    (htime : env.lastWriteTime path ≠ stored.lastWriteTime) :
    (env.reparseSucceeds stored.tu = true →
      getTranslationUnit env path s =
        (⟨path, some stored.tu⟩,
         { s with
           trace := s.trace ++ [EngineCall.reparse stored.tu env.unsavedFiles],
           translationUnits :=
             mapInsert path { stored with lastWriteTime := env.lastWriteTime path }
               s.translationUnits })) ∧
    (env.reparseSucceeds stored.tu = false →
      getTranslationUnit env path s =
        fullParse env path (env.compileArgsForTranslationUnit path)
          (env.lastWriteTime path)
          (addEvent (EngineCall.reparse stored.tu env.unsavedFiles) s)) := by
  rw [getTU_src env path s hsrc]
  simp only [getSourceTranslationUnit, hlook]
  rw [if_neg (fun hand => htime hand.2), if_pos hargs]
  constructor
  · intro hr
    rw [if_pos hr]
    rfl
  · intro hr
    rw [if_neg (by simp [hr])]

/-- Claim C4 — compile-arguments change: for a SourceFile path with a cached
entry whose freshly fetched compile arguments differ from the stored ones,
`getTranslationUnit` (regardless of the modification time) runs the full
rebuild tail: it disposes the old handle, erases the entry and performs a
full parse; the engine-call trace is exactly one dispose of the old handle
followed by one parse, and on parse success the new entry holds a fresh
handle different from the old one. -/
theorem getTranslationUnit_args_changed (env : Env) (path : String) (s : SIState)
    (stored : StoredTranslationUnit)
    (hsrc : isTranslationUnit path = true)
    (hlook : s.translationUnits.lookup path = some stored)
    (hargs : env.compileArgsForTranslationUnit path ≠ stored.compileArgs)
    (hfresh : ∀ p ∈ s.translationUnits, p.2.tu < s.nextHandle) :
    getTranslationUnit env path s =
      fullParse env path (env.compileArgsForTranslationUnit path)
        (env.lastWriteTime path) s ∧
    (getTranslationUnit env path s).2.trace =
      s.trace ++ [EngineCall.dispose stored.tu,
        EngineCall.parse path
          (fullParseArgs env (env.compileArgsForTranslationUnit path))
          env.unsavedFiles] ∧
    (env.parseSucceeds path
        (fullParseArgs env (env.compileArgsForTranslationUnit path)) = true →
      (getTranslationUnit env path s).2.translationUnits.lookup path =
        some ⟨fullParseArgs env (env.compileArgsForTranslationUnit path),
              env.lastWriteTime path, s.nextHandle⟩ ∧
      (getTranslationUnit env path s).1 = ⟨path, some s.nextHandle⟩) ∧
    stored.tu ≠ s.nextHandle := by
  have heq : getTranslationUnit env path s =
      fullParse env path (env.compileArgsForTranslationUnit path)
        (env.lastWriteTime path) s := by
    rw [getTU_src env path s hsrc]
    simp only [getSourceTranslationUnit, hlook]
    rw [if_neg (fun hand => hargs hand.1), if_neg hargs]
  refine ⟨heq, ?_, ?_, ?_⟩
  · rw [heq, fullParse_trace, removeTU_trace_some hlook, List.append_assoc]
    rfl
  · intro hp
    rw [heq]
    exact fullParse_lookup_success hp
  · have hmem := lookup_mem hlook
    have hlt := hfresh (path, stored) hmem
    exact Nat.ne_of_lt hlt

/-- Claim C5 — map invariants: every operation of the manager preserves the
well-formedness of the `translationUnits_` map (strictly sorted keys, hence
at most one stored artifact per path), and a failed engine parse never
inserts an entry: whenever a call is forced into the full-parse tail (no
entry, changed arguments, or changed write time with failing reparse) and
the engine parse fails, `getTranslationUnit` returns the empty result and
the map holds no entry for that path. Entries always carry a handle
produced by a successful parse — the model only constructs a stored handle
inside the success branch of `fullParse`. -/
theorem sourceIndex_map_invariants :
    (∀ (fuel : Nat) (env : Env) (path : String) (s : SIState),
       mapWf s.translationUnits →
       mapWf ((getTranslationUnitF fuel env path s).2.translationUnits)) ∧
    (∀ (f : String) (s : SIState), mapWf s.translationUnits →
       mapWf ((removeTranslationUnit f s).translationUnits)) ∧
    (∀ s : SIState, mapWf ((removeAllTranslationUnits s).translationUnits)) ∧
    (∀ (env : Env) (path : String) (s : SIState), mapWf s.translationUnits →
       mapWf ((primeTranslationUnit env path s).translationUnits)) ∧
    (∀ (env : Env) (path : String) (s : SIState), mapWf s.translationUnits →
       mapWf ((reprimeTranslationUnit env path s).translationUnits)) ∧
    (∀ (env : Env) (path : String) (s : SIState),
       mapWf s.translationUnits → isTranslationUnit path = true →
       env.parseSucceeds path
         (fullParseArgs env (env.compileArgsForTranslationUnit path)) = false →
       (∀ stored, s.translationUnits.lookup path = some stored →
          env.compileArgsForTranslationUnit path = stored.compileArgs →
          env.lastWriteTime path ≠ stored.lastWriteTime ∧
            env.reparseSucceeds stored.tu = false) →
       (getTranslationUnit env path s).1 = ⟨"", none⟩ ∧
       (getTranslationUnit env path s).2.translationUnits.lookup path = none) := by
  refine ⟨?_, ?_, ?_, ?_, ?_, ?_⟩
  · intro fuel env path s h
    exact mapWf_getTranslationUnitF fuel path s h
  · intro f s h
    exact mapWf_removeTU h
  · intro s
    exact mapWf_removeAll s
  · intro env path s h
    unfold primeTranslationUnit
    cases hl : List.lookup path s.translationUnits with
    | none =>
      simp only [hl]
      exact mapWf_getTranslationUnitF 2 path s h
    | some stored =>
      simp only [hl]
      exact h
  · intro env path s h
    unfold reprimeTranslationUnit
    cases hl : List.lookup path s.translationUnits with
    | none =>
      simp only [hl]
      exact h
    | some stored =>
      simp only [hl]
      exact mapWf_getTranslationUnitF 2 path s h
  · intro env path s hwf hsrc hp hno
    rw [getTU_src env path s hsrc]
    simp only [getSourceTranslationUnit]
    cases hl : List.lookup path s.translationUnits with
    | none =>
      simp only [hl]
      constructor
      · rw [fullParse_fail hp]
      · exact fullParse_fail_lookup hwf hp
    | some stored =>
      simp only [hl]
      by_cases h1 : env.compileArgsForTranslationUnit path = stored.compileArgs
      · obtain ⟨ht, hr⟩ := hno stored hl h1
        rw [if_neg (fun hand => ht hand.2), if_pos h1, if_neg (by simp [hr])]
        constructor
        · rw [fullParse_fail hp]
        · exact fullParse_fail_lookup hwf hp
      · rw [if_neg (fun hand => h1 hand.1), if_neg h1]
        constructor
        · rw [fullParse_fail hp]
        · exact fullParse_fail_lookup hwf hp

theorem getSourceTU_reuse {env : Env} {path : String} {s : SIState}
    {stored : StoredTranslationUnit}
    (hlook : s.translationUnits.lookup path = some stored)
    (hargs : env.compileArgsForTranslationUnit path = stored.compileArgs)
    (htime : env.lastWriteTime path = stored.lastWriteTime) :
    getSourceTranslationUnit env path s = (⟨path, some stored.tu⟩, s) := by
  simp only [getSourceTranslationUnit, hlook]
  rw [if_pos ⟨hargs, htime⟩]

theorem getSourceTU_reparse_true {env : Env} {path : String} {s : SIState}
    {stored : StoredTranslationUnit}
    (hlook : s.translationUnits.lookup path = some stored)
    (hargs : env.compileArgsForTranslationUnit path = stored.compileArgs)
    (htime : env.lastWriteTime path ≠ stored.lastWriteTime)
    (hr : env.reparseSucceeds stored.tu = true) :
    getSourceTranslationUnit env path s =
      (⟨path, some stored.tu⟩,
       { s with
         trace := s.trace ++ [EngineCall.reparse stored.tu env.unsavedFiles],
         translationUnits :=
           mapInsert path { stored with lastWriteTime := env.lastWriteTime path }
             s.translationUnits }) := by
  simp only [getSourceTranslationUnit, hlook]
  rw [if_neg (fun hand => htime hand.2), if_pos hargs, if_pos hr]
  rfl

theorem getSourceTU_reparse_false {env : Env} {path : String} {s : SIState}
    {stored : StoredTranslationUnit}
    (hlook : s.translationUnits.lookup path = some stored)
    (hargs : env.compileArgsForTranslationUnit path = stored.compileArgs)
    (htime : env.lastWriteTime path ≠ stored.lastWriteTime)
    (hr : env.reparseSucceeds stored.tu = false) :
    getSourceTranslationUnit env path s =
      fullParse env path (env.compileArgsForTranslationUnit path)
        (env.lastWriteTime path)
        (addEvent (EngineCall.reparse stored.tu env.unsavedFiles) s) := by
  simp only [getSourceTranslationUnit, hlook]
  rw [if_neg (fun hand => htime hand.2), if_pos hargs, if_neg (by simp [hr])]

theorem getTUF_succ_src (fuel : Nat) (env : Env) (path : String) (s : SIState)
    (hsrc : isTranslationUnit path = true) :
    getTranslationUnitF (fuel + 1) env path s = getSourceTranslationUnit env path s := by
  simp only [getTranslationUnitF]
  rw [if_pos hsrc]

theorem removeTU_trace_suffix (f : String) (s : SIState) :
    ∃ t, (removeTranslationUnit f s).trace = s.trace ++ t ∧
      ∀ e ∈ t, isIncQuery e = false := by
  cases h : s.translationUnits.lookup f with
  | none =>
    refine ⟨[], ?_, by simp⟩
    rw [removeTU_trace_none h, List.append_nil]
  | some stored =>
    refine ⟨[EngineCall.dispose stored.tu], ?_, ?_⟩
    · rw [removeTU_trace_some h]
    · intro e he
      simp at he
      rw [he]
      rfl

theorem fullParse_trace_suffix (env : Env) (f : String) (args : List String)
    (lwt : Nat) (s : SIState) :
    ∃ t, (fullParse env f args lwt s).2.trace = s.trace ++ t ∧
      ∀ e ∈ t, isIncQuery e = false := by
  obtain ⟨t1, ht1, hq1⟩ := removeTU_trace_suffix f s
  refine ⟨t1 ++ [EngineCall.parse f (fullParseArgs env args) env.unsavedFiles], ?_, ?_⟩
  · rw [fullParse_trace, ht1, List.append_assoc]
  · intro e he
    rcases List.mem_append.mp he with h | h
    · exact hq1 e h
    · simp at h
      rw [h]
      rfl

theorem getSource_trace_suffix (env : Env) (path : String) (s : SIState) :
    ∃ t, (getSourceTranslationUnit env path s).2.trace = s.trace ++ t ∧
      ∀ e ∈ t, isIncQuery e = false := by
  simp only [getSourceTranslationUnit]
  cases hl : List.lookup path s.translationUnits with
  | none =>
    simp only [hl]
    exact fullParse_trace_suffix env path _ _ s
  | some stored =>
    simp only [hl]
    by_cases h1 : env.compileArgsForTranslationUnit path = stored.compileArgs ∧
        env.lastWriteTime path = stored.lastWriteTime
    · rw [if_pos h1]
      exact ⟨[], by simp, by simp⟩
    · rw [if_neg h1]
      by_cases h2 : env.compileArgsForTranslationUnit path = stored.compileArgs
      · rw [if_pos h2]
        by_cases h3 : env.reparseSucceeds stored.tu = true
        · rw [if_pos h3]
          refine ⟨[EngineCall.reparse stored.tu env.unsavedFiles], rfl, ?_⟩
          intro e he
          simp at he
          rw [he]
          rfl
        · rw [if_neg h3]
          obtain ⟨t, ht, hq⟩ := fullParse_trace_suffix env path
            (env.compileArgsForTranslationUnit path) (env.lastWriteTime path)
            (addEvent (EngineCall.reparse stored.tu env.unsavedFiles) s)
          refine ⟨EngineCall.reparse stored.tu env.unsavedFiles :: t, ?_, ?_⟩
          · rw [ht]
            show (s.trace ++ [EngineCall.reparse stored.tu env.unsavedFiles]) ++ t = _
            simp [List.append_assoc]
          · intro e he
            rcases List.mem_cons.mp he with h | h
            · rw [h]
              rfl
            · exact hq e h
      · rw [if_neg h2]
        exact fullParse_trace_suffix env path _ _ s

theorem getSource_empty_lookup {env : Env} {path : String} {s : SIState}
    (hwf : mapWf s.translationUnits)
    (h : (getSourceTranslationUnit env path s).1.tu = none) :
    (getSourceTranslationUnit env path s).2.translationUnits.lookup path = none := by
  simp only [getSourceTranslationUnit] at h ⊢
  cases hl : List.lookup path s.translationUnits with
  | none =>
    simp only [hl] at h ⊢
    exact fullParse_fail_lookup hwf (fullParse_empty h)
  | some stored =>
    simp only [hl] at h ⊢
    by_cases h1 : env.compileArgsForTranslationUnit path = stored.compileArgs ∧
        env.lastWriteTime path = stored.lastWriteTime
    · rw [if_pos h1] at h
      simp at h
    · rw [if_neg h1] at h ⊢
      by_cases h2 : env.compileArgsForTranslationUnit path = stored.compileArgs
      · rw [if_pos h2] at h ⊢
        by_cases h3 : env.reparseSucceeds stored.tu = true
        · rw [if_pos h3] at h
          simp at h
        · rw [if_neg h3] at h ⊢
          exact fullParse_fail_lookup hwf (fullParse_empty h)
      · rw [if_neg h2] at h ⊢
        exact fullParse_fail_lookup hwf (fullParse_empty h)

/-- Claim C1 — evaluation of the code at the failing input. Cold header
lookup of `util.h` with known sources `[b.cpp, a.cpp]`, where only `a.cpp`
includes the header and every parse succeeds: the search force-parses
`b.cpp` (handle 0), finds it does not include the header — and then calls
`removeTranslationUnit(filePath.absolutePath())` with the HEADER path
`util.h` instead of `b.cpp`, which is a no-op because headers never have
cache entries. Consequently `b.cpp`'s artifact is still in the cache at the
end of the call, with no dispose ever issued, contradicting the claimed
eviction of speculative parses. -/
theorem headerLookup_speculative_not_evicted :
    (getTranslationUnit envB "util.h" s0).1 = ⟨"a.cpp", some 1⟩ ∧
    (getTranslationUnit envB "util.h" s0).2.translationUnits.lookup "b.cpp" =
      some ⟨argsStd, 5, 0⟩ ∧
    (getTranslationUnit envB "util.h" s0).2.trace.all
      (fun e => match e with
        | EngineCall.dispose _ => false
        | _ => true) = true := by
  decide

/-- Claim C6 — counterexample to the claim as stated: `a.cpp` is present in
the cache, yet `reprimeTranslationUnit` with unchanged compile arguments
and modification time leaves the state (including the engine-call trace)
completely unchanged — no reparse and no engine call of any kind happens,
because `reprimeTranslationUnit` delegates to `getTranslationUnit`, whose
staleness policy reuses the artifact verbatim. -/
theorem reprime_cached_no_engine_call :
    (sHit.translationUnits.lookup "a.cpp").isSome = true ∧
    reprimeTranslationUnit envHit "a.cpp" sHit = sHit := by
  decide

/-- Claim C6 (amended) — for a path present in the cache,
`reprimeTranslationUnit` re-runs the full staleness policy via
`getTranslationUnit`: when the arguments and modification time are
unchanged it makes no engine call (the state is returned untouched), and
when the modification time changed with unchanged arguments the engine
reparse is invoked; for a path not present it creates no entry and makes no
engine call. -/
theorem reprime_runs_staleness_policy (env : Env) (path : String) (s : SIState) :
    (s.translationUnits.lookup path = none → reprimeTranslationUnit env path s = s) ∧
    (∀ stored, s.translationUnits.lookup path = some stored →
      reprimeTranslationUnit env path s = (getTranslationUnit env path s).2 ∧
      (isTranslationUnit path = true →
        env.compileArgsForTranslationUnit path = stored.compileArgs →
        ((env.lastWriteTime path = stored.lastWriteTime →
            reprimeTranslationUnit env path s = s) ∧
         (env.lastWriteTime path ≠ stored.lastWriteTime →
            ∃ t, (reprimeTranslationUnit env path s).trace =
              s.trace ++ EngineCall.reparse stored.tu env.unsavedFiles :: t)))) := by
  constructor
  · intro h
    unfold reprimeTranslationUnit
    simp only [h]
  · intro stored hlook
    constructor
    · unfold reprimeTranslationUnit
      simp only [hlook]
    · intro hsrc hargs
      constructor
      · intro htime
        unfold reprimeTranslationUnit
        simp only [hlook]
        rw [getTU_src env path s hsrc, getSourceTU_reuse hlook hargs htime]
      · intro htime
        unfold reprimeTranslationUnit
        simp only [hlook]
        rw [getTU_src env path s hsrc]
        by_cases hr : env.reparseSucceeds stored.tu = true
        · refine ⟨[], ?_⟩
          rw [getSourceTU_reparse_true hlook hargs htime hr]
        · refine ⟨[EngineCall.dispose stored.tu,
            EngineCall.parse path
              (fullParseArgs env (env.compileArgsForTranslationUnit path))
              env.unsavedFiles], ?_⟩
          rw [getSourceTU_reparse_false hlook hargs htime (Bool.eq_false_iff.mpr hr),
            fullParse_trace,
            removeTU_trace_some
              (show (addEvent (EngineCall.reparse stored.tu env.unsavedFiles)
                  s).translationUnits.lookup path = some stored from hlook)]
          simp [addEvent]

/-- Claim C7 — `primeTranslationUnit` on an already-cached path makes no
engine call and leaves the state unchanged; `reprimeTranslationUnit` on a
never-seen path makes no engine call and creates no entry (the state is
unchanged). -/
theorem prime_reprime_noop (env : Env) (path : String) (s : SIState) :
    (∀ stored, s.translationUnits.lookup path = some stored →
       primeTranslationUnit env path s = s) ∧
    (s.translationUnits.lookup path = none →
       reprimeTranslationUnit env path s = s) := by
  constructor
  · intro stored h
    unfold primeTranslationUnit
    simp only [h]
  · intro h
    unfold reprimeTranslationUnit
    simp only [h]

/-- Claim C8 — `isTranslationUnit` classifies a path as a source file
exactly when its extension, lower-cased, belongs to the fixed set
{.c, .cc, .cpp, .m, .mm}; a path whose last component has no dot (no
extension) is never classified as a source file. The function reads no
state, so classification has no side effect on the cache. -/
theorem isTranslationUnit_ext_classification (p : String) :
    (isTranslationUnit p = true ↔
      extensionLowerCase p ∈ [".c", ".cc", ".cpp", ".m", ".mm"]) ∧
    (extFromLastDot (lastCompAux [] p.data) = none → isTranslationUnit p = false) := by
  constructor
  · simp only [isTranslationUnit, Bool.or_eq_true, beq_iff_eq, List.mem_cons,
      List.not_mem_nil, or_false]
    tauto
  · intro h
    simp [isTranslationUnit, extensionLowerCase, h]

/-- Claim C9 — `removeAllTranslationUnits` disposes every cached handle and
empties the map; on an already-empty map it is a no-op, hence the operation
is idempotent; and for a SourceFile path, `getTranslationUnit` after
`removeAllTranslationUnits` runs the full-parse tail on a state with no
entry — exactly the behaviour of a first-ever request — with the internal
`removeTranslationUnit` being a no-op (nothing left to dispose). -/
theorem removeAll_reset_semantics (env : Env) (path : String) (s : SIState) :
    ((removeAllTranslationUnits s).translationUnits = [] ∧
     (removeAllTranslationUnits s).trace =
       s.trace ++ s.translationUnits.map (fun p => EngineCall.dispose p.2.tu)) ∧
    (s.translationUnits = [] → removeAllTranslationUnits s = s) ∧
    removeAllTranslationUnits (removeAllTranslationUnits s) =
      removeAllTranslationUnits s ∧
    (isTranslationUnit path = true →
      getTranslationUnit env path (removeAllTranslationUnits s) =
        fullParse env path (env.compileArgsForTranslationUnit path)
          (env.lastWriteTime path) (removeAllTranslationUnits s) ∧
      removeTranslationUnit path (removeAllTranslationUnits s) =
        removeAllTranslationUnits s) := by
  refine ⟨⟨rfl, rfl⟩, ?_, ?_, ?_⟩
  · intro h
    obtain ⟨m, n, t⟩ := s
    simp only at h
    subst h
    simp [removeAllTranslationUnits]
  · obtain ⟨m, n, t⟩ := s
    simp [removeAllTranslationUnits]
  · intro hsrc
    constructor
    · rw [getTU_src _ _ _ hsrc]
      rfl
    · rfl

/-- Claim C10 — during the forced-parse fallback of header resolution, a
known source file whose forced parse yields an empty result is skipped
silently: the search continues with the next source in provider order from
the post-parse state, no cache entry exists for that source afterwards, and
its inclusion is never tested (the failed step adds no `includesFile` query
to the trace). -/
theorem headerSearch_skips_failed_parse (fuel : Nat) (env : Env) (path : String)
    (srcFile : String) (rest : List String) (s : SIState)
    (hwf : mapWf s.translationUnits)
    (hsrc : isTranslationUnit srcFile = true)
    (hempty : (getSourceTranslationUnit env srcFile s).1.tu = none) :
    headerSearchF (fuel + 1) env path (srcFile :: rest) s =
      headerSearchF (fuel + 1) env path rest
        (getSourceTranslationUnit env srcFile s).2 ∧
    (getSourceTranslationUnit env srcFile s).2.translationUnits.lookup srcFile =
      none ∧
    (∀ e ∈ (getSourceTranslationUnit env srcFile s).2.trace,
       isIncQuery e = true → e ∈ s.trace) := by
  refine ⟨?_, getSource_empty_lookup hwf hempty, ?_⟩
  · unfold headerSearchF
    simp only [headerSearchGo, getTUF_succ_src fuel env srcFile s hsrc]
    rw [if_pos hempty]
  · intro e he hq
    obtain ⟨t, ht, hqt⟩ := getSource_trace_suffix env srcFile s
    rw [ht] at he
    rcases List.mem_append.mp he with h | h
    · exact h
    · rw [hqt e h] at hq
      exact absurd hq (by simp)

/-- Witness for C2: a concrete cache hit on `a.cpp`. -/
theorem getTranslationUnit_reuse_witness :
    getTranslationUnit envHit "a.cpp" sHit = (⟨"a.cpp", some 0⟩, sHit) :=
  getTranslationUnit_reuse envHit "a.cpp" sHit storedA (by decide) (by decide)
    (by decide) (by decide)

/-- Witness for C3: `a.cpp` was modified (write time 7 vs stored 5); the
reparse succeeds, the stored write time is updated and the handle is kept. -/
theorem getTranslationUnit_mtime_reparse_witness :
    getTranslationUnit envRe "a.cpp" sHit =
      (⟨"a.cpp", some 0⟩,
       { sHit with
         trace := sHit.trace ++ [EngineCall.reparse 0 []],
         translationUnits :=
           mapInsert "a.cpp" ⟨argsStd, 7, 0⟩ sHit.translationUnits }) :=
  (getTranslationUnit_mtime_reparse envRe "a.cpp" sHit storedA (by decide)
    (by decide) (by decide) (by decide)).1 (by decide)

/-- Witness for C4: the compile arguments for `a.cpp` changed, so the call
runs the full rebuild and the old handle 0 differs from the fresh handle. -/
theorem getTranslationUnit_args_changed_witness :
    getTranslationUnit envNew "a.cpp" sHit =
      fullParse envNew "a.cpp" (envNew.compileArgsForTranslationUnit "a.cpp")
        (envNew.lastWriteTime "a.cpp") sHit ∧
    storedA.tu ≠ sHit.nextHandle :=
  ⟨(getTranslationUnit_args_changed envNew "a.cpp" sHit storedA (by decide)
      (by decide) (by decide) (by decide)).1,
   (getTranslationUnit_args_changed envNew "a.cpp" sHit storedA (by decide)
      (by decide) (by decide) (by decide)).2.2.2⟩

/-- Witness for C5: with a failing engine, a first-ever request for `a.cpp`
returns the empty result and inserts no entry. -/
theorem sourceIndex_map_invariants_witness :
    (getTranslationUnit envFail "a.cpp" s0).1 = ⟨"", none⟩ ∧
    (getTranslationUnit envFail "a.cpp" s0).2.translationUnits.lookup "a.cpp" =
      none :=
  sourceIndex_map_invariants.2.2.2.2.2 envFail "a.cpp" s0 List.Pairwise.nil
    (by decide) (by decide) (fun stored h => Option.noConfusion h)

/-- Witness for C6 (amended): `a.cpp` is cached and its modification time
changed, so repriming it invokes the engine reparse. -/
theorem reprime_staleness_witness :
    ∃ t, (reprimeTranslationUnit envRe "a.cpp" sHit).trace =
      sHit.trace ++ EngineCall.reparse storedA.tu envRe.unsavedFiles :: t :=
  ((((reprime_runs_staleness_policy envRe "a.cpp" sHit).2 storedA
      (by decide)).2 (by decide) (by decide)).2) (by decide)

/-- Witness for C7: priming a cached path and repriming a never-seen path
both leave the state untouched. -/
theorem prime_reprime_noop_witness :
    primeTranslationUnit envHit "a.cpp" sHit = sHit ∧
    reprimeTranslationUnit envHit "x.cpp" s0 = s0 :=
  ⟨(prime_reprime_noop envHit "a.cpp" sHit).1 storedA (by decide),
   (prime_reprime_noop envHit "x.cpp" s0).2 (by decide)⟩

/-- Witness for C8: an upper-case extension is classified as a source file;
a path without a dot is classified as a header. -/
theorem isTranslationUnit_ext_witness :
    isTranslationUnit "src/Foo.CPP" = true ∧ isTranslationUnit "Makefile" = false :=
  ⟨(isTranslationUnit_ext_classification "src/Foo.CPP").1.mpr (by decide),
   (isTranslationUnit_ext_classification "Makefile").2 (by decide)⟩

/-- Witness for C9: after `removeAllTranslationUnits`, requesting `a.cpp`
again runs the full-parse tail with nothing left to dispose. -/
theorem removeAll_reset_semantics_witness :
    getTranslationUnit envHit "a.cpp" (removeAllTranslationUnits sHit) =
      fullParse envHit "a.cpp" (envHit.compileArgsForTranslationUnit "a.cpp")
        (envHit.lastWriteTime "a.cpp") (removeAllTranslationUnits sHit) ∧
    removeTranslationUnit "a.cpp" (removeAllTranslationUnits sHit) =
      removeAllTranslationUnits sHit :=
  (removeAll_reset_semantics envHit "a.cpp" sHit).2.2.2 (by decide)

/-- Witness for C10: the forced parse of `b.cpp` fails, so the header
search skips it — continuing with `a.cpp` from the post-failure state, in
which `b.cpp` has no cache entry and no inclusion query was made. -/
theorem headerSearch_skips_failed_parse_witness :
    headerSearchF 1 envBFail "util.h" ["b.cpp", "a.cpp"] s0 =
      headerSearchF 1 envBFail "util.h" ["a.cpp"]
        (getSourceTranslationUnit envBFail "b.cpp" s0).2 ∧
    (getSourceTranslationUnit envBFail "b.cpp" s0).2.translationUnits.lookup
      "b.cpp" = none ∧
    (∀ e ∈ (getSourceTranslationUnit envBFail "b.cpp" s0).2.trace,
       isIncQuery e = true → e ∈ s0.trace) :=
  headerSearch_skips_failed_parse 0 envBFail "util.h" "b.cpp" ["a.cpp"] s0
    List.Pairwise.nil (by decide) (by decide)
